import Mathlib

/-!
# Verification of the RememberMe recognition core

Shallow embedding of the recognition core of the `remember-me` repository:
the Identity Matching Engine, the Tie-Break Arbiter, the Enrollment Store's
centroid maintenance, the Content-Addressed Announcement Cache, and the
patient recognition screen's result handling.

The server modules that implement the Matching Engine, Tie-Break Arbiter and
Announcement Cache (`backend recognition.py` / `audio.py`) are not part of the
checked-in sources; only their HTTP callers, the API contract documents and the
database migrations are.  Definitions for those components are therefore
modelled from the specification, as indicated in their doc comments.  The
patient recognition screen (`client/app/patient-recognize.tsx`) is present in
the sources and is embedded directly from the code.

Similarity scores are embedded as exact rationals (the spec normalizes cosine
similarity into `[0,1]` for thresholding); the numeric scoring function itself
is a boundary parameter, matching the spec's treatment of the Embedding
Provider as a black box.
-/

namespace RememberMe

/-- Confidence band of a recognition outcome (spec §3, `RecognitionOutcome`). -/
inductive Band where
  | high
  | medium
  | low
deriving DecidableEq, Repr

/-- Status of a recognition outcome (spec §3, `RecognitionOutcome`). -/
inductive Status where
  | identified
  | needs_confirmation
  | not_sure
deriving DecidableEq, Repr

/-- A scored match candidate: `{personId, similarityScore}`; the spec's `rank`
field is the candidate's position in the ranked list (spec §3,
`MatchCandidate`). -/
structure Candidate where
  personId : String
  score : ℚ
deriving DecidableEq, Repr

/-- Configuration surface of the matching core (spec §6). -/
structure Config where
  topK : Nat
  highThreshold : ℚ
  mediumThreshold : ℚ
  tieThreshold : ℚ
deriving DecidableEq, Repr

/-- The documented default configuration (spec §6): `topK = 5`,
`highThreshold = 0.85`, `mediumThreshold = 0.60`, `tieThreshold = 0.08`. -/
def defaultConfig : Config :=
  { topK := 5, highThreshold := 0.85, mediumThreshold := 0.60, tieThreshold := 0.08 }

/-- Modelled from the spec: result of the Matching Engine before tie-break is
applied (spec §4.1); `status = none` means the final status is deferred to the
Tie-Break Arbiter. -/
structure MatchResult where
  band : Band
  top1 : ℚ
  top2 : ℚ
  usedTieBreak : Bool
  status : Option Status
  winnerPersonId : Option String
  candidates : List Candidate
deriving DecidableEq, Repr

/-- Candidate ordering: descending similarity score with a deterministic
tie-break on `personId` for exact-equal scores (spec §3, `MatchCandidate`). -/
def candBefore (a b : Candidate) : Bool :=
  decide (b.score < a.score) || (decide (a.score = b.score) && decide (a.personId < b.personId))

/-- Insertion step of the deterministic candidate sort. -/
def insertCand (c : Candidate) : List Candidate → List Candidate
  | [] => [c]
  | d :: ds => if candBefore c d then c :: d :: ds else d :: insertCand c ds

/-- Rank candidates by descending score, ties broken on `personId`
(spec §4.1 step 2, §3 `MatchCandidate`). -/
def rankCandidates : List Candidate → List Candidate
  | [] => []
  | c :: cs => insertCand c (rankCandidates cs)

/-- Modelled from the spec: confidence banding (spec §4.1 step 4):
`top1 >= highThreshold → high`, `mediumThreshold <= top1 < highThreshold →
medium`, otherwise `low`. -/
def bandOf (cfg : Config) (top1 : ℚ) : Band :=
  if cfg.highThreshold ≤ top1 then Band.high
  else if cfg.mediumThreshold ≤ top1 then Band.medium
  else Band.low

/-- Modelled from the spec: status decided from the band when no tie condition
holds (spec §4.1 step 6). -/
def statusOfBand : Band → Status
  | Band.high => Status.identified
  | Band.medium => Status.needs_confirmation
  | Band.low => Status.not_sure

/-- Modelled from the spec: the tie condition (spec §4.1 step 5):
`top1 - top2 < tieThreshold` and band is not low. -/
def tieCond (cfg : Config) (top1 top2 : ℚ) (b : Band) : Bool :=
  decide (top1 - top2 < cfg.tieThreshold) && decide (b ≠ Band.low)

/-- Modelled from the spec: the decision core of the Matching Engine over
already-scored candidates (spec §4.1 steps 2-7).  `top2 = 0` when fewer than
two candidates exist; the returned candidate list is the ranked top `K`;
`status = none` defers to the Tie-Break Arbiter; `winnerPersonId` is set only
when the status decided here is `identified`. -/
def matchScored (cfg : Config) (scored : List Candidate) : MatchResult :=
  let ranked := rankCandidates scored
  let top1 := ((ranked.head?).map Candidate.score).getD 0
  let top2 := (((ranked.drop 1).head?).map Candidate.score).getD 0
  let b := bandOf cfg top1
  let t := tieCond cfg top1 top2 b
  { band := b
    top1 := top1
    top2 := top2
    usedTieBreak := t
    status := if t then none else some (statusOfBand b)
    winnerPersonId :=
      if !t && decide (b = Band.high) then (ranked.head?).map Candidate.personId else none
    candidates := ranked.take cfg.topK }

/-- Modelled from the spec: errors of the Matching Engine.  Malformed
embeddings (wrong dimensionality) are rejected rather than silently
truncated or padded (spec §4.1 failure semantics). -/
inductive MatchError where
  | dimensionMismatch
deriving DecidableEq, Repr

/-- Modelled from the spec: `match(queryEmbedding, candidateCentroids)`
(spec §4.1).  The similarity function `sim` is the normalized cosine
similarity boundary (spec §4.1 step 1); it is a parameter because the
Embedding Provider side is a black box (spec §6).  Centroids whose
dimensionality disagrees with the query are rejected; otherwise every
centroid is scored and the decision core runs on the scored candidates. -/
def matchQuery (sim : List ℚ → List ℚ → ℚ) (cfg : Config) (q : List ℚ)
    (centroids : List (String × List ℚ)) : Except MatchError MatchResult :=
  if centroids.all (fun c => c.2.length = q.length) then
    Except.ok (matchScored cfg (centroids.map (fun c => ⟨c.1, sim q c.2⟩)))
  else
    Except.error MatchError.dimensionMismatch

/-! ## Tie-Break Arbiter (spec §4.2) -/

/-- Modelled from the spec: the request the Tie-Break Arbiter sends to its
downstream higher-capability classifier: the live capture plus the candidate
identities (spec §4.2). -/
structure TieBreakRequest where
  queryFrame : String
  candidates : List String
deriving DecidableEq, Repr

/-- Modelled from the spec: possible responses of the downstream capability as
the arbiter classifies them (spec §4.2): a claimed winner, or one of the
failure modes (ambiguous response, malformed response, timeout, downstream
error). -/
inductive DownstreamResponse where
  | winner (personId : String)
  | ambiguous
  | malformed
  | timeout
  | failure
deriving DecidableEq, Repr

/-- A downstream response that does not name a winner; the arbiter must
abstain on every such response (spec §4.2 failure semantics). -/
def isAbstainResponse : DownstreamResponse → Bool
  | DownstreamResponse.winner _ => false
  | _ => true

/-- Modelled from the spec: the arbiter bounds the candidate set passed
downstream to exactly the two tied candidates (spec §4.2). -/
def tieBreakRequest (frame a b : String) : TieBreakRequest :=
  { queryFrame := frame, candidates := [a, b] }

/-- Modelled from the spec: `resolveTie(queryFrame, candidateA, candidateB)`
(spec §4.2).  The downstream capability is an opaque boundary function; any
response other than a winner naming one of the two tied candidates — timeout,
downstream error, ambiguous or malformed response — is treated as abstention
(`none`), never as a forced guess. -/
def resolveTie (downstream : TieBreakRequest → DownstreamResponse)
    (frame a b : String) : Option String :=
  match downstream (tieBreakRequest frame a b) with
  | DownstreamResponse.winner w => if w = a ∨ w = b then some w else none
  | _ => none

/-- The durable result of one recognition attempt (spec §3,
`RecognitionOutcome`). -/
structure RecognitionOutcome where
  status : Status
  winnerPersonId : Option String
  confidenceScore : ℚ
  confidenceBand : Band
  candidates : List Candidate
  usedTieBreak : Bool
deriving DecidableEq, Repr

/-- Modelled from the spec: folding the arbiter's verdict into the overall
outcome: a winner yields `identified` with that winner; abstention yields
`not_sure` with no winner (spec §4.2 failure semantics, §4.1 step 7). -/
def applyTieBreak (r : MatchResult) (w : Option String) : RecognitionOutcome :=
  match w with
  | some p =>
      { status := Status.identified, winnerPersonId := some p, confidenceScore := r.top1,
        confidenceBand := r.band, candidates := r.candidates, usedTieBreak := r.usedTieBreak }
  | none =>
      { status := Status.not_sure, winnerPersonId := none, confidenceScore := r.top1,
        confidenceBand := r.band, candidates := r.candidates, usedTieBreak := r.usedTieBreak }

/-- Modelled from the spec: the full recognition control flow for one frame:
Matching Engine, then the Tie-Break Arbiter exactly when the engine deferred
the status (spec §2 control flow, §4.1 step 5, §4.2).  The two tied candidates
passed to the arbiter are the top two ranked candidates. -/
def recognize (sim : List ℚ → List ℚ → ℚ) (cfg : Config)
    (downstream : TieBreakRequest → DownstreamResponse) (frame : String)
    (q : List ℚ) (centroids : List (String × List ℚ)) :
    Except MatchError RecognitionOutcome :=
  (matchQuery sim cfg q centroids).map fun r =>
    match r.status with
    | some st =>
        { status := st, winnerPersonId := r.winnerPersonId, confidenceScore := r.top1,
          confidenceBand := r.band, candidates := r.candidates, usedTieBreak := r.usedTieBreak }
    | none =>
        let a := ((r.candidates.head?).map Candidate.personId).getD ""
        let b := (((r.candidates.drop 1).head?).map Candidate.personId).getD ""
        applyTieBreak r (resolveTie downstream frame a b)

/-! ## Enrollment Store centroid maintenance (spec §3, §6) -/

/-- A fixed-length numeric vector derived from one enrollment photo (spec §3,
`ReferenceEmbedding`). -/
structure ReferenceEmbedding where
  embeddingId : String
  vec : List ℚ
deriving DecidableEq, Repr

/-- Identity anchor for matching: reference embeddings plus the derived
centroid (spec §3, `EnrolledPerson`; identifiers and display fields that play
no role in centroid maintenance are omitted). -/
structure EnrolledPerson where
  personId : String
  refs : List ReferenceEmbedding
  centroid : List ℚ
deriving DecidableEq, Repr

/-- Component-wise mean of a list of vectors; the centroid of an empty family
is the empty vector (spec glossary: centroid). -/
def componentMean : List (List ℚ) → List ℚ
  | [] => []
  | v :: vs =>
    (vs.foldl (List.zipWith (· + ·)) v).map (fun x => x / ((vs.length + 1 : Nat) : ℚ))

/-- Modelled from the spec: `addReferenceEmbedding(personId, embedding)`
(spec §6): appends the embedding and eagerly recomputes the centroid as a
side effect owned by the store. -/
def addReferenceEmbedding (p : EnrolledPerson) (e : ReferenceEmbedding) : EnrolledPerson :=
  let refs := p.refs ++ [e]
  { p with refs := refs, centroid := componentMean (refs.map ReferenceEmbedding.vec) }

/-- Modelled from the spec: `removeReferenceEmbedding(personId, embeddingId)`
(spec §6): drops the embedding and eagerly recomputes the centroid. -/
def removeReferenceEmbedding (p : EnrolledPerson) (embeddingId : String) : EnrolledPerson :=
  let refs := p.refs.filter (fun r => r.embeddingId ≠ embeddingId)
  { p with refs := refs, centroid := componentMean (refs.map ReferenceEmbedding.vec) }

/-- The spec §3 invariant: the stored centroid is the component-wise mean of
the person's active reference embeddings. -/
def centroidInvariant (p : EnrolledPerson) : Prop :=
  p.centroid = componentMean (p.refs.map ReferenceEmbedding.vec)

/-! ## Announcement Cache: phrase keys and the sequential path (spec §4.3) -/

/-- Word splitter for phrase normalization: cuts the character list at
whitespace (empty words appear around consecutive whitespace and are filtered
out by `normalizeWords`). -/
def splitWordsAux : List Char → List (List Char)
  | [] => [[]]
  | c :: cs =>
    let rest := splitWordsAux cs
    if c.isWhitespace then [] :: rest
    else
      match rest with
      | [] => [[c]]
      | w :: ws => (c :: w) :: ws

/-- The words of a phrase after trimming, whitespace collapsing and canonical
lower-casing (spec §4.3 step 1). -/
def normalizeWords (s : String) : List (List Char) :=
  ((splitWordsAux s.toList).filter (fun w => !w.isEmpty)).map (List.map Char.toLower)

/-- Modelled from the spec: phrase normalization — trim, collapse internal
whitespace to single spaces, canonical (lower) casing (spec §4.3 step 1). -/
def normalizePhrase (s : String) : String :=
  String.mk (List.intercalate [' '] (normalizeWords s))

/-- Voice parameters: voice identity + model identity (spec §4.3 step 1). -/
structure VoiceParams where
  voiceId : String
  modelId : String
deriving DecidableEq, Repr

/-- Modelled from the spec: the deterministic content hash combining the
normalized phrase text with the voice parameters (spec §4.3 step 1, §3
`CachedAnnouncement`), modelled as an injective canonical encoding.  It takes
no patient or person argument: the key is shared across all patients/persons
whose inputs normalize identically. -/
def phraseKey (phraseText : String) (vp : VoiceParams) : String :=
  normalizePhrase phraseText ++ "|" ++ vp.voiceId ++ "|" ++ vp.modelId

/-- The durable CachedAnnouncement store: association list from `phraseKey` to
`audioLocation` (spec §3, `CachedAnnouncement`). -/
abbrev AnnStore := List (String × String)

/-- Lookup in the durable store by phrase key. -/
def lookupKey (store : AnnStore) (k : String) : Option String :=
  (store.find? (fun e => e.1 == k)).map Prod.snd

/-- Result of one sequential `getOrCreate` call: the audio location, the store
afterwards, and how many Synthesis Provider calls were made. -/
structure SeqCallResult where
  audioLocation : String
  store : AnnStore
  providerCalls : Nat
deriving DecidableEq, Repr

/-- Modelled from the spec: the sequential path of
`getOrCreate(phraseText, voiceParams)` (spec §4.3 steps 1-4, no concurrency):
hit returns immediately with zero provider calls; miss synthesizes once,
writes the CachedAnnouncement and returns the new location. -/
def getOrCreate (provider : String → VoiceParams → String) (store : AnnStore)
    (phraseText : String) (vp : VoiceParams) : SeqCallResult :=
  let key := phraseKey phraseText vp
  match lookupKey store key with
  | some loc => { audioLocation := loc, store := store, providerCalls := 0 }
  | none =>
    let loc := provider (normalizePhrase phraseText) vp
    { audioLocation := loc, store := (key, loc) :: store, providerCalls := 1 }

/-! ## Announcement Cache: the concurrent single-flight machine (spec §4.3, §5)

Modelled from the spec: the concurrent behaviour of `getOrCreate` — the
InFlightSynthesis registry with atomic claim-or-join semantics — is absent
from the checked-in sources, so it is embedded as a small-step interleaving
machine over a set of callers, following spec §4.3 steps 2-5 and §5.  Each
atomic step is one of: a cache hit; winning the claim (which starts the
caller's Synthesis Provider call and logs it); joining an in-flight synthesis
as a waiter; the synthesizer completing with success (writing the
CachedAnnouncement, removing the marker and releasing every waiter with the
same location); or the synthesizer failing (removing the marker and releasing
every waiter with the same error, writing nothing durable). -/

/-- The phase a `getOrCreate` caller is in. -/
inductive Phase where
  | start
  | synthesizing
  | waiting
  | doneOk (loc : String)
  | doneErr
deriving DecidableEq, Repr

/-- One caller of the Announcement Cache: its phrase key and current phase. -/
structure CallerSt where
  key : String
  phase : Phase
deriving DecidableEq, Repr

/-- Global state of the Announcement Cache machine: the durable store, the
process-wide InFlightSynthesis registry, the callers, and the log of Synthesis
Provider calls made so far (caller index, key). -/
structure SysState where
  cache : AnnStore
  inflight : List String
  callers : List CallerSt
  calls : List (Nat × String)
deriving DecidableEq, Repr

/-- Release a waiter on key `k` with the synthesized location. -/
def releaseOk (k loc : String) (c : CallerSt) : CallerSt :=
  if c.key = k ∧ c.phase = Phase.waiting then { c with phase := Phase.doneOk loc } else c

/-- Release a waiter on key `k` with the propagated failure. -/
def releaseErr (k : String) (c : CallerSt) : CallerSt :=
  if c.key = k ∧ c.phase = Phase.waiting then { c with phase := Phase.doneErr } else c

/-- Labels of the atomic steps of the cache machine. -/
inductive Label where
  | hit (i : Nat)
  | claim (i : Nat)
  | join (i : Nat)
  | synthOk (i : Nat) (loc : String)
  | synthFail (i : Nat)
deriving DecidableEq, Repr

/-- Small-step transition relation of the concurrent Announcement Cache
(spec §4.3 steps 2-5, §5). -/
inductive Step : SysState → Label → SysState → Prop where
  | hit (s : SysState) (i : Nat) (c : CallerSt) (loc : String)
      (hc : s.callers[i]? = some c) (hp : c.phase = Phase.start)
      (hl : lookupKey s.cache c.key = some loc) :
      Step s (Label.hit i)
        { s with callers := s.callers.set i { c with phase := Phase.doneOk loc } }
  | claim (s : SysState) (i : Nat) (c : CallerSt)
      (hc : s.callers[i]? = some c) (hp : c.phase = Phase.start)
      (hl : lookupKey s.cache c.key = none) (hn : c.key ∉ s.inflight) :
      Step s (Label.claim i)
        { s with inflight := c.key :: s.inflight,
                 callers := s.callers.set i { c with phase := Phase.synthesizing },
                 calls := (i, c.key) :: s.calls }
  | join (s : SysState) (i : Nat) (c : CallerSt)
      (hc : s.callers[i]? = some c) (hp : c.phase = Phase.start)
      (hl : lookupKey s.cache c.key = none) (hn : c.key ∈ s.inflight) :
      Step s (Label.join i)
        { s with callers := s.callers.set i { c with phase := Phase.waiting } }
  | synthOk (s : SysState) (i : Nat) (c : CallerSt) (loc : String)
      (hc : s.callers[i]? = some c) (hp : c.phase = Phase.synthesizing) :
      Step s (Label.synthOk i loc)
        { s with cache := (c.key, loc) :: s.cache,
                 inflight := s.inflight.erase c.key,
                 callers := (s.callers.set i { c with phase := Phase.doneOk loc }).map
                   (releaseOk c.key loc) }
  | synthFail (s : SysState) (i : Nat) (c : CallerSt)
      (hc : s.callers[i]? = some c) (hp : c.phase = Phase.synthesizing) :
      Step s (Label.synthFail i)
        { s with inflight := s.inflight.erase c.key,
                 callers := (s.callers.set i { c with phase := Phase.doneErr }).map
                   (releaseErr c.key) }

/-- A run: a trace of labelled steps. -/
inductive Run : SysState → List Label → SysState → Prop where
  | refl (s : SysState) : Run s [] s
  | step {s s' s'' : SysState} {l : Label} {ls : List Label}
      (h : Step s l s') (hr : Run s' ls s'') : Run s (l :: ls) s''

/-- Initial state of the spec §8 concurrency scenario: `n` concurrent
`getOrCreate` callers for the same never-before-seen `phraseKey` `k`. -/
def initState (k : String) (n : Nat) : SysState :=
  { cache := [], inflight := [], callers := List.replicate n ⟨k, Phase.start⟩, calls := [] }

/-- A trace with no Synthesis Provider failures. -/
def noFail (ls : List Label) : Bool :=
  ls.all fun l =>
    match l with
    | Label.synthFail _ => false
    | _ => true

/-- State invariant of the cache machine when every caller asks for the same
phrase key `k` (the spec §8 single-flight scenario): the InFlightSynthesis
registry and the durable store only ever concern `k`; at most one caller is
mid-synthesis; a synthesizing caller owns an inflight marker; an inflight
marker implies the key is still uncached; and every caller that finished
successfully holds exactly the durably cached location. -/
structure CacheInv (k : String) (s : SysState) : Prop where
  keys : ∀ c ∈ s.callers, c.key = k
  inflightSub : ∀ x ∈ s.inflight, x = k
  inflightNodup : s.inflight.Nodup
  cacheKeys : ∀ e ∈ s.cache, e.1 = k
  cacheLen : s.cache.length ≤ 1
  synthOne : ∀ (i j : Nat) (ci cj : CallerSt),
      s.callers[i]? = some ci → s.callers[j]? = some cj →
      ci.phase = Phase.synthesizing → cj.phase = Phase.synthesizing → i = j
  synthInflight : ∀ c ∈ s.callers, c.phase = Phase.synthesizing → k ∈ s.inflight
  inflightMiss : k ∈ s.inflight → s.cache = []
  doneOkCache : ∀ c ∈ s.callers, ∀ loc, c.phase = Phase.doneOk loc →
      lookupKey s.cache k = some loc
  callsKeys : ∀ e ∈ s.calls, e.2 = k

/-- Extra invariant along failure-free traces: at most one Synthesis Provider
call has been logged, and the log is empty exactly while the key is neither
in flight nor cached. -/
structure NoFailInv (k : String) (s : SysState) : Prop where
  callsLen : s.calls.length ≤ 1
  callsEmptyIff : s.calls = [] ↔ (k ∉ s.inflight ∧ s.cache = [])

/-- Concrete two-caller demonstration trace: caller 0 wins the claim, caller 1
joins as a waiter, caller 0's synthesis succeeds. -/
def twoCallerTrace : List Label :=
  [Label.claim 0, Label.join 1, Label.synthOk 0 "loc"]

/-- Final state of `twoCallerTrace` from `initState "k" 2`. -/
def twoCallerFinal : SysState :=
  { cache := [("k", "loc")], inflight := [],
    callers := [⟨"k", Phase.doneOk "loc"⟩, ⟨"k", Phase.doneOk "loc"⟩],
    calls := [(0, "k")] }

/-- Concrete pre-failure state: caller 0 synthesizing, caller 1 waiting,
caller 2 not yet started. -/
def failDemoPre : SysState :=
  { cache := [], inflight := ["k"],
    callers := [⟨"k", Phase.synthesizing⟩, ⟨"k", Phase.waiting⟩, ⟨"k", Phase.start⟩],
    calls := [(0, "k")] }

/-- State after caller 0's synthesis fails in `failDemoPre`. -/
def failDemoPost : SysState :=
  { cache := [], inflight := [],
    callers := [⟨"k", Phase.doneErr⟩, ⟨"k", Phase.doneErr⟩, ⟨"k", Phase.start⟩],
    calls := [(0, "k")] }

/-! ## Patient recognition screen result handling
(`client/app/patient-recognize.tsx`, `handleIdentify`) -/

/-- Recognition status as the client API types spell it
(`client/utils/recognitionApi.ts`, `RecognitionStatus`). -/
inductive ApiStatus where
  | identified
  | unsure
  | not_sure
deriving DecidableEq, Repr

/-- A candidate as returned to the client
(`client/utils/recognitionApi.ts`, `RecognitionApiCandidate`). -/
structure ApiCandidate where
  personId : String
  name : String
  confidence : ℚ
deriving DecidableEq, Repr

/-- The fields of the backend recognition response that `handleIdentify`
consults (`client/utils/recognitionApi.ts`, `RecognitionApiResult`); a JS
`undefined`/`null` winner is `none`. -/
structure ApiResult where
  status : ApiStatus
  winnerPersonId : Option String
  candidates : List ApiCandidate
deriving DecidableEq, Repr

/-- An enrolled person as the screen sees it (`currentPeople`). -/
structure PersonRef where
  id : String
  name : String
deriving DecidableEq, Repr

/-- The `resolvedPerson` computation of `handleIdentify`
(`client/app/patient-recognize.tsx`): `(result.winnerPersonId &&
currentPeople.find(p => p.id === result.winnerPersonId)) || (topCandidate &&
currentPeople.find(p => p.id === topCandidate.personId || p.name ===
topCandidate.name)) || null`, with JS truthiness: an absent or empty winner id
and a failed lookup both fall through to the top-candidate clause. -/
def resolvedPerson (result : ApiResult) (currentPeople : List PersonRef) : Option PersonRef :=
  let byWinner :=
    match result.winnerPersonId with
    | some w => if w ≠ "" then currentPeople.find? (fun p => p.id == w) else none
    | none => none
  match byWinner with
  | some p => some p
  | none =>
    match result.candidates.head? with
    | some tc => currentPeople.find? (fun p => p.id == tc.personId || p.name == tc.name)
    | none => none

/-- Where the screen navigates after a recognition response. -/
inductive RecognizeRoute where
  | notSure
  | resultScreen (p : PersonRef)
deriving DecidableEq, Repr

/-- The routing decision of `handleIdentify`
(`client/app/patient-recognize.tsx`): `if (result.status === 'not_sure' ||
!resolvedPerson)` divert to the not-sure screen, otherwise show the result
screen for the resolved person. -/
def identifyRoute (result : ApiResult) (currentPeople : List PersonRef) : RecognizeRoute :=
  match resolvedPerson result currentPeople with
  | some p =>
      if result.status = ApiStatus.not_sure then RecognizeRoute.notSure
      else RecognizeRoute.resultScreen p
  | none => RecognizeRoute.notSure

/-! ## Helper lemmas about the Matching Engine -/

theorem matchScored_band (cfg : Config) (l : List Candidate) :
    (matchScored cfg l).band = bandOf cfg (matchScored cfg l).top1 := rfl

theorem matchScored_usedTieBreak (cfg : Config) (l : List Candidate) :
    (matchScored cfg l).usedTieBreak =
      tieCond cfg (matchScored cfg l).top1 (matchScored cfg l).top2 (matchScored cfg l).band :=
  rfl

theorem matchScored_status (cfg : Config) (l : List Candidate) :
    (matchScored cfg l).status =
      (if (matchScored cfg l).usedTieBreak then none
       else some (statusOfBand (matchScored cfg l).band)) := rfl

theorem matchScored_candidates (cfg : Config) (l : List Candidate) :
    (matchScored cfg l).candidates = (rankCandidates l).take cfg.topK := rfl

theorem bandOf_high_iff (cfg : Config) (t : ℚ) :
    bandOf cfg t = Band.high ↔ cfg.highThreshold ≤ t := by
  unfold bandOf
  split_ifs with h1 h2 <;> simp_all

theorem bandOf_medium_iff (cfg : Config) (t : ℚ) :
    bandOf cfg t = Band.medium ↔ (cfg.mediumThreshold ≤ t ∧ ¬ cfg.highThreshold ≤ t) := by
  unfold bandOf
  split_ifs with h1 h2 <;> simp_all

theorem bandOf_low_iff (cfg : Config) (t : ℚ) :
    bandOf cfg t = Band.low ↔ (¬ cfg.mediumThreshold ≤ t ∧ ¬ cfg.highThreshold ≤ t) := by
  unfold bandOf
  split_ifs with h1 h2 <;> simp_all

theorem statusOfBand_eq_identified (b : Band) :
    statusOfBand b = Status.identified ↔ b = Band.high := by
  cases b <;> simp [statusOfBand]

theorem statusOfBand_eq_needs_confirmation (b : Band) :
    statusOfBand b = Status.needs_confirmation ↔ b = Band.medium := by
  cases b <;> simp [statusOfBand]

theorem statusOfBand_eq_not_sure (b : Band) :
    statusOfBand b = Status.not_sure ↔ b = Band.low := by
  cases b <;> simp [statusOfBand]

theorem matchQuery_ok (sim : List ℚ → List ℚ → ℚ) (cfg : Config) (q : List ℚ)
    (cents : List (String × List ℚ)) (r : MatchResult)
    (h : matchQuery sim cfg q cents = Except.ok r) :
    r = matchScored cfg (cents.map (fun c => ⟨c.1, sim q c.2⟩)) := by
  unfold matchQuery at h
  split_ifs at h with hall
  exact (Except.ok.inj h).symm

/-! ## Claim theorems -/

/-- C1: for every successful `match` call in which the tie condition does not
hold, the confidence band is a function of the top score alone with the
default thresholds — high iff `top1 ≥ 0.85`, medium iff `0.60 ≤ top1 < 0.85`,
low iff `top1 < 0.60` — and the status decided by the engine is `identified`
exactly when the band is high, `needs_confirmation` exactly when medium, and
`not_sure` exactly when low. -/
theorem banding_and_status_without_tie
    (sim : List ℚ → List ℚ → ℚ) (q : List ℚ) (cents : List (String × List ℚ))
    (r : MatchResult)
    (hok : matchQuery sim defaultConfig q cents = Except.ok r)
    (hnotie : ¬ (r.top1 - r.top2 < (0.08 : ℚ) ∧ r.band ≠ Band.low)) :
    (r.band = Band.high ↔ (0.85 : ℚ) ≤ r.top1)
    ∧ (r.band = Band.medium ↔ ((0.60 : ℚ) ≤ r.top1 ∧ r.top1 < (0.85 : ℚ)))
    ∧ (r.band = Band.low ↔ r.top1 < (0.60 : ℚ))
    ∧ (r.status = some Status.identified ↔ r.band = Band.high)
    ∧ (r.status = some Status.needs_confirmation ↔ r.band = Band.medium)
    ∧ (r.status = some Status.not_sure ↔ r.band = Band.low) := by
  have hr := matchQuery_ok sim defaultConfig q cents r hok
  subst hr
  set l := cents.map (fun c => (⟨c.1, sim q c.2⟩ : Candidate)) with hl
  have htie : (matchScored defaultConfig l).usedTieBreak = false := by
    rw [matchScored_usedTieBreak]
    unfold tieCond
    by_contra hne
    simp only [Bool.not_eq_false, Bool.and_eq_true, decide_eq_true_eq] at hne
    exact hnotie ⟨hne.1, hne.2⟩
  have hband := matchScored_band defaultConfig l
  refine ⟨?_, ?_, ?_, ?_, ?_, ?_⟩
  · rw [hband, bandOf_high_iff]
    exact Iff.rfl
  · rw [hband, bandOf_medium_iff]
    simp only [not_le]
    exact Iff.rfl
  · rw [hband, bandOf_low_iff]
    simp only [not_le]
    constructor
    · exact fun h => h.1
    · intro h
      exact ⟨h, lt_trans h (by norm_num [defaultConfig])⟩
  · rw [matchScored_status, htie]
    simp [statusOfBand_eq_identified]
  · rw [matchScored_status, htie]
    simp [statusOfBand_eq_needs_confirmation]
  · rw [matchScored_status, htie]
    simp [statusOfBand_eq_not_sure]

/-- Witness for C1: a single candidate scoring `0.92` has no tie, band high,
status identified. -/
theorem banding_and_status_without_tie_witness :
    ((matchScored defaultConfig [⟨"Alice", (0.92 : ℚ)⟩]).band = Band.high
        ↔ (0.85 : ℚ) ≤ (matchScored defaultConfig [⟨"Alice", (0.92 : ℚ)⟩]).top1)
    ∧ ((matchScored defaultConfig [⟨"Alice", (0.92 : ℚ)⟩]).band = Band.medium
        ↔ ((0.60 : ℚ) ≤ (matchScored defaultConfig [⟨"Alice", (0.92 : ℚ)⟩]).top1
            ∧ (matchScored defaultConfig [⟨"Alice", (0.92 : ℚ)⟩]).top1 < (0.85 : ℚ)))
    ∧ ((matchScored defaultConfig [⟨"Alice", (0.92 : ℚ)⟩]).band = Band.low
        ↔ (matchScored defaultConfig [⟨"Alice", (0.92 : ℚ)⟩]).top1 < (0.60 : ℚ))
    ∧ ((matchScored defaultConfig [⟨"Alice", (0.92 : ℚ)⟩]).status = some Status.identified
        ↔ (matchScored defaultConfig [⟨"Alice", (0.92 : ℚ)⟩]).band = Band.high)
    ∧ ((matchScored defaultConfig [⟨"Alice", (0.92 : ℚ)⟩]).status = some Status.needs_confirmation
        ↔ (matchScored defaultConfig [⟨"Alice", (0.92 : ℚ)⟩]).band = Band.medium)
    ∧ ((matchScored defaultConfig [⟨"Alice", (0.92 : ℚ)⟩]).status = some Status.not_sure
        ↔ (matchScored defaultConfig [⟨"Alice", (0.92 : ℚ)⟩]).band = Band.low) :=
  banding_and_status_without_tie (fun _ _ => (0.92 : ℚ)) [0] [("Alice", [0])]
    (matchScored defaultConfig [⟨"Alice", (0.92 : ℚ)⟩]) rfl
    (by
      simp only [matchScored, rankCandidates, insertCand, candBefore, bandOf, tieCond,
        defaultConfig]
      norm_num)

/-- C3: for every successful `match` call whose two best scores satisfy
`top1 - top2 < 0.08` and whose band is not low, the result is marked
`usedTieBreak = true` and the final status is deferred (left undecided by the
engine, `status = none`); in particular the candidate set
`{Alice: 0.70, Bob: 0.65}` yields `usedTieBreak = true`. -/
theorem tie_defers_to_arbiter :
    (∀ (sim : List ℚ → List ℚ → ℚ) (q : List ℚ) (cents : List (String × List ℚ))
        (r : MatchResult),
        matchQuery sim defaultConfig q cents = Except.ok r →
        r.top1 - r.top2 < (0.08 : ℚ) → r.band ≠ Band.low →
        r.usedTieBreak = true ∧ r.status = none)
    ∧ (matchScored defaultConfig [⟨"Alice", (0.70 : ℚ)⟩, ⟨"Bob", (0.65 : ℚ)⟩]).usedTieBreak
        = true := by
  constructor
  · intro sim q cents r hok hlt hband
    have hr := matchQuery_ok sim defaultConfig q cents r hok
    subst hr
    set l := cents.map (fun c => (⟨c.1, sim q c.2⟩ : Candidate)) with hl
    have ht : (matchScored defaultConfig l).usedTieBreak = true := by
      rw [matchScored_usedTieBreak]
      unfold tieCond
      simp only [Bool.and_eq_true, decide_eq_true_eq]
      exact ⟨hlt, hband⟩
    refine ⟨ht, ?_⟩
    rw [matchScored_status, ht]
    simp
  · simp only [matchScored, rankCandidates, insertCand, candBefore, bandOf, tieCond,
      defaultConfig]
    norm_num
    all_goals decide

/-- Witness for C3: candidates scoring `0.70` and `0.65` tie and defer to the
arbiter. -/
theorem tie_defers_to_arbiter_witness :
    (matchScored defaultConfig [⟨"Alice", (0.70 : ℚ)⟩, ⟨"Bob", (0.65 : ℚ)⟩]).usedTieBreak = true
    ∧ (matchScored defaultConfig [⟨"Alice", (0.70 : ℚ)⟩, ⟨"Bob", (0.65 : ℚ)⟩]).status = none :=
  tie_defers_to_arbiter.1 (fun _ c => c.headD 0) [0] [("Alice", [0.70]), ("Bob", [0.65])]
    (matchScored defaultConfig [⟨"Alice", (0.70 : ℚ)⟩, ⟨"Bob", (0.65 : ℚ)⟩]) rfl
    (by
      simp only [matchScored, rankCandidates, insertCand, candBefore, bandOf, tieCond,
        defaultConfig]
      norm_num)
    (by
      simp only [matchScored, rankCandidates, insertCand, candBefore, bandOf, tieCond,
        defaultConfig]
      norm_num
      all_goals decide)

/-- C4: `match` on an empty candidate set (no one enrolled) succeeds — no
error is raised — and the outcome is `not_sure` with an empty candidate list
and no `winnerPersonId`. -/
theorem match_empty_candidates_not_sure (sim : List ℚ → List ℚ → ℚ) (q : List ℚ) :
    ∃ r : MatchResult,
      matchQuery sim defaultConfig q [] = Except.ok r
      ∧ r.status = some Status.not_sure
      ∧ r.candidates = []
      ∧ r.winnerPersonId = none := by
  refine ⟨matchScored defaultConfig [], rfl, ?_, ?_, ?_⟩
  · simp only [matchScored, rankCandidates, bandOf, tieCond, statusOfBand, defaultConfig]
    norm_num
  · rfl
  · simp only [matchScored, rankCandidates, bandOf, tieCond, statusOfBand, defaultConfig]
    norm_num

/-- C8: `match` (and the full recognition pipeline) is deterministic: two
invocations with the same query embedding and the same candidate set produce
identical results — the embedding is a pure function with no source of
randomness. -/
theorem match_deterministic :
    (∀ (sim : List ℚ → List ℚ → ℚ) (cfg : Config) (q1 q2 : List ℚ)
        (c1 c2 : List (String × List ℚ)),
        q1 = q2 → c1 = c2 → matchQuery sim cfg q1 c1 = matchQuery sim cfg q2 c2)
    ∧ (∀ (sim : List ℚ → List ℚ → ℚ) (cfg : Config)
        (ds : TieBreakRequest → DownstreamResponse) (frame : String)
        (q1 q2 : List ℚ) (c1 c2 : List (String × List ℚ)),
        q1 = q2 → c1 = c2 →
        recognize sim cfg ds frame q1 c1 = recognize sim cfg ds frame q2 c2) := by
  constructor
  · intro sim cfg q1 q2 c1 c2 hq hc
    subst hq; subst hc; rfl
  · intro sim cfg ds frame q1 q2 c1 c2 hq hc
    subst hq; subst hc; rfl

/-- Witness for C8: two repeated invocations on a concrete input agree. -/
theorem match_deterministic_witness :
    matchQuery (fun _ _ => (0.9 : ℚ)) defaultConfig [1] [("Alice", [1])]
      = matchQuery (fun _ _ => (0.9 : ℚ)) defaultConfig [1] [("Alice", [1])] :=
  match_deterministic.1 (fun _ _ => (0.9 : ℚ)) defaultConfig [1] [1]
    [("Alice", [1])] [("Alice", [1])] rfl rfl

theorem matchScored_status_none (cfg : Config) (l : List Candidate) :
    (matchScored cfg l).status = none ↔ (matchScored cfg l).usedTieBreak = true := by
  rw [matchScored_status]
  cases h : (matchScored cfg l).usedTieBreak <;> simp [h]

theorem lookupKey_cons_self (st : AnnStore) (k loc : String) :
    lookupKey ((k, loc) :: st) k = some loc := by
  simp [lookupKey]

theorem getOrCreate_hit (provider : String → VoiceParams → String) (store : AnnStore)
    (t : String) (vp : VoiceParams) (loc : String)
    (hl : lookupKey store (phraseKey t vp) = some loc) :
    getOrCreate provider store t vp =
      { audioLocation := loc, store := store, providerCalls := 0 } := by
  simp only [getOrCreate, hl]

theorem getOrCreate_miss (provider : String → VoiceParams → String) (store : AnnStore)
    (t : String) (vp : VoiceParams)
    (hl : lookupKey store (phraseKey t vp) = none) :
    getOrCreate provider store t vp =
      { audioLocation := provider (normalizePhrase t) vp,
        store := (phraseKey t vp, provider (normalizePhrase t) vp) :: store,
        providerCalls := 1 } := by
  simp only [getOrCreate, hl]

/-- C5: the Tie-Break Arbiter passes exactly the two tied candidates
downstream, and every failure mode — timeout, downstream error, ambiguous
response, or a malformed winner naming neither tied candidate — results in
abstention: the overall outcome becomes `not_sure` with `usedTieBreak = true`
and no winner, never a forced identity guess. -/
theorem tiebreak_bounded_and_abstains :
    (∀ frame a b : String, (tieBreakRequest frame a b).candidates = [a, b])
    ∧ (∀ (ds : TieBreakRequest → DownstreamResponse) (frame a b : String),
        isAbstainResponse (ds (tieBreakRequest frame a b)) = true →
        resolveTie ds frame a b = none)
    ∧ (∀ (ds : TieBreakRequest → DownstreamResponse) (frame a b w : String),
        ds (tieBreakRequest frame a b) = DownstreamResponse.winner w → w ≠ a → w ≠ b →
        resolveTie ds frame a b = none)
    ∧ (∀ (sim : List ℚ → List ℚ → ℚ) (cfg : Config)
        (ds : TieBreakRequest → DownstreamResponse) (frame : String)
        (q : List ℚ) (cents : List (String × List ℚ)) (r : MatchResult),
        matchQuery sim cfg q cents = Except.ok r →
        r.status = none →
        (∀ req, isAbstainResponse (ds req) = true) →
        recognize sim cfg ds frame q cents = Except.ok
          { status := Status.not_sure, winnerPersonId := none, confidenceScore := r.top1,
            confidenceBand := r.band, candidates := r.candidates, usedTieBreak := true }) := by
  have habstain : ∀ (ds : TieBreakRequest → DownstreamResponse) (frame a b : String),
      isAbstainResponse (ds (tieBreakRequest frame a b)) = true →
      resolveTie ds frame a b = none := by
    intro ds frame a b habst
    unfold resolveTie
    cases hds : ds (tieBreakRequest frame a b) <;> simp_all [isAbstainResponse]
  refine ⟨fun _ _ _ => rfl, habstain, ?_, ?_⟩
  · intro ds frame a b w hds hwa hwb
    unfold resolveTie
    rw [hds]
    simp [hwa, hwb]
  · intro sim cfg ds frame q cents r hok hnone hds
    have hr := matchQuery_ok sim cfg q cents r hok
    subst hr
    have ht := hnone
    rw [matchScored_status_none] at ht
    unfold recognize
    rw [hok]
    simp only [Except.map, hnone]
    rw [habstain ds frame _ _ (hds _)]
    simp [applyTieBreak, ht]

/-- Witness for C5: with a downstream capability that always times out, the
tied `{Alice: 0.70, Bob: 0.65}` scenario ends `not_sure` with
`usedTieBreak = true` and no winner. -/
theorem tiebreak_bounded_and_abstains_witness :
    recognize (fun _ c => c.headD 0) defaultConfig (fun _ => DownstreamResponse.timeout)
      "frame" [0] [("Alice", [0.70]), ("Bob", [0.65])] = Except.ok
      { status := Status.not_sure, winnerPersonId := none
        confidenceScore :=
          (matchScored defaultConfig [⟨"Alice", (0.70 : ℚ)⟩, ⟨"Bob", (0.65 : ℚ)⟩]).top1
        confidenceBand :=
          (matchScored defaultConfig [⟨"Alice", (0.70 : ℚ)⟩, ⟨"Bob", (0.65 : ℚ)⟩]).band
        candidates :=
          (matchScored defaultConfig [⟨"Alice", (0.70 : ℚ)⟩, ⟨"Bob", (0.65 : ℚ)⟩]).candidates
        usedTieBreak := true } :=
  tiebreak_bounded_and_abstains.2.2.2 (fun _ c => c.headD 0) defaultConfig
    (fun _ => DownstreamResponse.timeout) "frame" [0] [("Alice", [0.70]), ("Bob", [0.65])]
    (matchScored defaultConfig [⟨"Alice", (0.70 : ℚ)⟩, ⟨"Bob", (0.65 : ℚ)⟩]) rfl
    (by
      rw [matchScored_status_none]
      simp only [matchScored, rankCandidates, insertCand, candBefore, bandOf, tieCond,
        defaultConfig]
      norm_num
      all_goals decide)
    (fun _ => rfl)

/-- C9: adding or removing a reference embedding eagerly recomputes the
stored centroid: after either operation the person's `CentroidVector` equals
the component-wise mean of the person's active reference embeddings (and the
reference list changed exactly by the appended/removed embedding).  The
Matching Engine never recomputes it: `matchQuery` consumes stored centroid
vectors as given. -/
theorem centroid_eager_mean (p : EnrolledPerson) (e : ReferenceEmbedding)
    (embeddingId : String) :
    centroidInvariant (addReferenceEmbedding p e)
    ∧ centroidInvariant (removeReferenceEmbedding p embeddingId)
    ∧ (addReferenceEmbedding p e).refs = p.refs ++ [e]
    ∧ (removeReferenceEmbedding p embeddingId).refs
        = p.refs.filter (fun r => r.embeddingId ≠ embeddingId) :=
  ⟨rfl, rfl, rfl, rfl⟩

/-- C6: the phrase key depends only on the normalized phrase text together
with the voice parameters — texts differing only in whitespace/case yield the
same key — and a second sequential `getOrCreate` for such a variant returns
the same cached audio location with zero Synthesis Provider calls. -/
theorem phrase_key_normalization :
    (∀ (t1 t2 : String) (vp : VoiceParams),
        normalizePhrase t1 = normalizePhrase t2 → phraseKey t1 vp = phraseKey t2 vp)
    ∧ (∀ vp : VoiceParams, phraseKey "  Hello   World " vp = phraseKey "hello world" vp)
    ∧ (∀ (provider : String → VoiceParams → String) (store : AnnStore)
        (t1 t2 : String) (vp : VoiceParams),
        normalizePhrase t1 = normalizePhrase t2 →
        (getOrCreate provider (getOrCreate provider store t1 vp).store t2 vp).audioLocation
          = (getOrCreate provider store t1 vp).audioLocation
        ∧ (getOrCreate provider (getOrCreate provider store t1 vp).store t2 vp).providerCalls
          = 0) := by
  have hkey : ∀ (t1 t2 : String) (vp : VoiceParams),
      normalizePhrase t1 = normalizePhrase t2 → phraseKey t1 vp = phraseKey t2 vp := by
    intro t1 t2 vp h
    unfold phraseKey
    rw [h]
  refine ⟨hkey, ?_, ?_⟩
  · intro vp
    exact hkey _ _ vp rfl
  · intro provider store t1 t2 vp h
    have hk := hkey t1 t2 vp h
    cases hl : lookupKey store (phraseKey t1 vp) with
    | some loc =>
        have h1 := getOrCreate_hit provider store t1 vp loc hl
        have h2 : lookupKey store (phraseKey t2 vp) = some loc := by
          rw [← hk]
          exact hl
        have h3 := getOrCreate_hit provider store t2 vp loc h2
        rw [h1, h3]
        exact ⟨rfl, rfl⟩
    | none =>
        have h1 := getOrCreate_miss provider store t1 vp hl
        have h2 : lookupKey (getOrCreate provider store t1 vp).store (phraseKey t2 vp)
            = some (provider (normalizePhrase t1) vp) := by
          rw [h1, ← hk]
          exact lookupKey_cons_self store (phraseKey t1 vp) (provider (normalizePhrase t1) vp)
        have h3 := getOrCreate_hit provider (getOrCreate provider store t1 vp).store t2 vp
          (provider (normalizePhrase t1) vp) h2
        rw [h3, h1]
        exact ⟨rfl, rfl⟩

/-- Witness for C6: `"  Hello   World "` and `"hello world"` share a key, and
the second sequential call is a pure cache hit with zero provider calls. -/
theorem phrase_key_normalization_witness :
    phraseKey "  Hello   World " ⟨"voiceX", "modelY"⟩
        = phraseKey "hello world" ⟨"voiceX", "modelY"⟩
    ∧ (getOrCreate (fun _ _ => "audio.mp3")
          (getOrCreate (fun _ _ => "audio.mp3") [] "  Hello   World " ⟨"voiceX", "modelY"⟩).store
          "hello world" ⟨"voiceX", "modelY"⟩).audioLocation
        = (getOrCreate (fun _ _ => "audio.mp3") [] "  Hello   World "
            ⟨"voiceX", "modelY"⟩).audioLocation
    ∧ (getOrCreate (fun _ _ => "audio.mp3")
          (getOrCreate (fun _ _ => "audio.mp3") [] "  Hello   World " ⟨"voiceX", "modelY"⟩).store
          "hello world" ⟨"voiceX", "modelY"⟩).providerCalls = 0 :=
  ⟨phrase_key_normalization.1 "  Hello   World " "hello world" ⟨"voiceX", "modelY"⟩ rfl,
   (phrase_key_normalization.2.2 (fun _ _ => "audio.mp3") [] "  Hello   World " "hello world"
      ⟨"voiceX", "modelY"⟩ rfl).1,
   (phrase_key_normalization.2.2 (fun _ _ => "audio.mp3") [] "  Hello   World " "hello world"
      ⟨"voiceX", "modelY"⟩ rfl).2⟩

/-- C10: the recognition screen diverts to the not-sure screen exactly when
the response status is `not_sure` or no person resolves; with any other
status it shows the person resolved by `winnerPersonId` when that id matches
an enrolled person, falling back to the first candidate matched by `personId`
or by display name — so an `unsure` response with no `winnerPersonId` can
still surface a named identity. -/
theorem recognize_screen_resolution :
    (∀ (result : ApiResult) (people : List PersonRef),
        identifyRoute result people = RecognizeRoute.notSure
          ↔ (result.status = ApiStatus.not_sure ∨ resolvedPerson result people = none))
    ∧ (∀ (result : ApiResult) (people : List PersonRef) (p : PersonRef),
        result.status ≠ ApiStatus.not_sure → resolvedPerson result people = some p →
        identifyRoute result people = RecognizeRoute.resultScreen p)
    ∧ (∀ (result : ApiResult) (people : List PersonRef) (w : String) (p : PersonRef),
        result.winnerPersonId = some w → w ≠ "" →
        people.find? (fun q => q.id == w) = some p →
        resolvedPerson result people = some p)
    ∧ (∀ (result : ApiResult) (people : List PersonRef) (w : String) (tc : ApiCandidate),
        result.winnerPersonId = some w →
        people.find? (fun q => q.id == w) = none →
        result.candidates.head? = some tc →
        resolvedPerson result people
          = people.find? (fun p => p.id == tc.personId || p.name == tc.name))
    ∧ (∀ (result : ApiResult) (people : List PersonRef) (tc : ApiCandidate),
        result.winnerPersonId = none →
        result.candidates.head? = some tc →
        resolvedPerson result people
          = people.find? (fun p => p.id == tc.personId || p.name == tc.name)) := by
  refine ⟨?_, ?_, ?_, ?_, ?_⟩
  · intro result people
    unfold identifyRoute
    cases hres : resolvedPerson result people with
    | none => simp
    | some p =>
        by_cases hst : result.status = ApiStatus.not_sure <;> simp [hst]
  · intro result people p hst hres
    unfold identifyRoute
    rw [hres]
    simp [hst]
  · intro result people w p hw hne hfind
    unfold resolvedPerson
    rw [hw]
    simp [hne, hfind]
  · intro result people w tc hw hnone htc
    unfold resolvedPerson
    rw [hw]
    simp [hnone, htc]
  · intro result people tc hw htc
    unfold resolvedPerson
    rw [hw]
    simp [htc]

/-- Witness for C10: an `unsure` response with no winner but a candidate whose
display name matches an enrolled person routes to the result screen for that
person. -/
theorem recognize_screen_resolution_witness :
    identifyRoute
        { status := ApiStatus.unsure, winnerPersonId := none,
          candidates := [⟨"srv-7", "Priya", (0.7 : ℚ)⟩] }
        [⟨"person-1", "Priya"⟩]
      = RecognizeRoute.resultScreen ⟨"person-1", "Priya"⟩ :=
  recognize_screen_resolution.2.1
    { status := ApiStatus.unsure, winnerPersonId := none,
      candidates := [⟨"srv-7", "Priya", (0.7 : ℚ)⟩] }
    [⟨"person-1", "Priya"⟩] ⟨"person-1", "Priya"⟩ (by decide) rfl

/-! ## Announcement Cache concurrency lemmas -/


theorem memOfGetElem {α : Type} {l : List α} {i : Nat} {a : α} (h : l[i]? = some a) :
    a ∈ l := by
  obtain ⟨hlt, rfl⟩ := List.getElem?_eq_some_iff.mp h
  exact List.getElem_mem hlt

theorem ltLengthOfGetElem {α : Type} {l : List α} {i : Nat} {a : α} (h : l[i]? = some a) :
    i < l.length :=
  (List.getElem?_eq_some_iff.mp h).1

theorem cache_empty_of_miss {k : String} {cache : AnnStore}
    (hkeys : ∀ e ∈ cache, e.1 = k) (hmiss : lookupKey cache k = none) : cache = [] := by
  cases cache with
  | nil => rfl
  | cons e rest =>
      exfalso
      have h1 : e.1 = k := hkeys e (by simp)
      unfold lookupKey at hmiss
      rw [List.find?_cons_of_pos rest (by simp [h1])] at hmiss
      simp at hmiss

theorem releaseOk_key (k loc : String) (c : CallerSt) : (releaseOk k loc c).key = c.key := by
  unfold releaseOk
  split_ifs <;> rfl

theorem releaseErr_key (k : String) (c : CallerSt) : (releaseErr k c).key = c.key := by
  unfold releaseErr
  split_ifs <;> rfl

theorem releaseOk_phase_synth {k loc : String} {c : CallerSt}
    (h : (releaseOk k loc c).phase = Phase.synthesizing) :
    c.phase = Phase.synthesizing := by
  unfold releaseOk at h
  split_ifs at h with hc
  exact h

theorem releaseErr_phase_synth {k : String} {c : CallerSt}
    (h : (releaseErr k c).phase = Phase.synthesizing) :
    c.phase = Phase.synthesizing := by
  unfold releaseErr at h
  split_ifs at h with hc
  exact h

theorem releaseOk_phase_doneOk {k loc : String} {c : CallerSt} {l : String}
    (h : (releaseOk k loc c).phase = Phase.doneOk l) :
    c.phase = Phase.doneOk l ∨ (l = loc ∧ c.phase = Phase.waiting) := by
  unfold releaseOk at h
  split_ifs at h with hc
  · right
    simp at h
    exact ⟨h.symm, hc.2⟩
  · left
    exact h

theorem releaseErr_phase_doneOk {k : String} {c : CallerSt} {l : String}
    (h : (releaseErr k c).phase = Phase.doneOk l) : c.phase = Phase.doneOk l := by
  unfold releaseErr at h
  split_ifs at h with hc
  exact h

theorem cacheInv_step {k : String} {s s' : SysState} {lab : Label}
    (inv : CacheInv k s) (hstep : Step s lab s') : CacheInv k s' := by
  cases hstep with
  | hit i c loc hc hp hl =>
      have hck : c.key = k := inv.keys c (memOfGetElem hc)
      have hlen : i < s.callers.length := ltLengthOfGetElem hc
      refine ⟨?_, inv.inflightSub, inv.inflightNodup, inv.cacheKeys, inv.cacheLen, ?_, ?_,
        inv.inflightMiss, ?_, inv.callsKeys⟩
      · intro c' hc'
        rcases List.mem_or_eq_of_mem_set hc' with hmem | rfl
        · exact inv.keys c' hmem
        · exact hck
      · intro i' j' ci cj hgi hgj hpi hpj
        by_cases hii : i = i'
        · subst hii
          rw [List.getElem?_set_self hlen] at hgi
          injection hgi with h
          rw [← h] at hpi
          simp at hpi
        · rw [List.getElem?_set_ne hii] at hgi
          by_cases hjj : i = j'
          · subst hjj
            rw [List.getElem?_set_self hlen] at hgj
            injection hgj with h
            rw [← h] at hpj
            simp at hpj
          · rw [List.getElem?_set_ne hjj] at hgj
            exact inv.synthOne i' j' ci cj hgi hgj hpi hpj
      · intro c' hc' hp'
        rcases List.mem_or_eq_of_mem_set hc' with hmem | rfl
        · exact inv.synthInflight c' hmem hp'
        · exact absurd hp' (by simp)
      · intro c' hc' loc' hp'
        rcases List.mem_or_eq_of_mem_set hc' with hmem | rfl
        · exact inv.doneOkCache c' hmem loc' hp'
        · show lookupKey s.cache k = some loc'
          simp at hp'
          rw [← hp', ← hck]
          exact hl
  | claim i c hc hp hl hn =>
      have hck : c.key = k := inv.keys c (memOfGetElem hc)
      have hkn : k ∉ s.inflight := by
        rw [← hck]
        exact hn
      have hcache : s.cache = [] := by
        refine cache_empty_of_miss inv.cacheKeys ?_
        rw [← hck]
        exact hl
      refine ⟨?_, ?_, ?_, inv.cacheKeys, inv.cacheLen, ?_, ?_, ?_, ?_, ?_⟩
      · intro c' hc'
        rcases List.mem_or_eq_of_mem_set hc' with hmem | rfl
        · exact inv.keys c' hmem
        · exact hck
      · intro x hx
        rcases List.mem_cons.mp hx with rfl | hmem
        · exact hck
        · exact inv.inflightSub x hmem
      · exact List.nodup_cons.mpr ⟨hn, inv.inflightNodup⟩
      · intro i' j' ci cj hgi hgj hpi hpj
        have key : ∀ (m : Nat) (cm : CallerSt),
            (s.callers.set i { c with phase := Phase.synthesizing })[m]? = some cm →
            cm.phase = Phase.synthesizing → m = i := by
          intro m cm hgm hpm
          by_cases him : i = m
          · exact him.symm
          · rw [List.getElem?_set_ne him] at hgm
            exact absurd (inv.synthInflight cm (memOfGetElem hgm) hpm) hkn
        rw [key i' ci hgi hpi, key j' cj hgj hpj]
      · intro c' hc' hp'
        exact List.mem_cons.mpr (Or.inl hck.symm)
      · intro _
        exact hcache
      · intro c' hc' loc' hp'
        rcases List.mem_or_eq_of_mem_set hc' with hmem | rfl
        · show lookupKey s.cache k = some loc'
          exact inv.doneOkCache c' hmem loc' hp'
        · exact absurd hp' (by simp)
      · intro e he
        rcases List.mem_cons.mp he with rfl | hmem
        · exact hck
        · exact inv.callsKeys e hmem
  | join i c hc hp hl hn =>
      have hck : c.key = k := inv.keys c (memOfGetElem hc)
      have hlen : i < s.callers.length := ltLengthOfGetElem hc
      refine ⟨?_, inv.inflightSub, inv.inflightNodup, inv.cacheKeys, inv.cacheLen, ?_, ?_,
        inv.inflightMiss, ?_, inv.callsKeys⟩
      · intro c' hc'
        rcases List.mem_or_eq_of_mem_set hc' with hmem | rfl
        · exact inv.keys c' hmem
        · exact hck
      · intro i' j' ci cj hgi hgj hpi hpj
        by_cases hii : i = i'
        · subst hii
          rw [List.getElem?_set_self hlen] at hgi
          injection hgi with h
          rw [← h] at hpi
          simp at hpi
        · rw [List.getElem?_set_ne hii] at hgi
          by_cases hjj : i = j'
          · subst hjj
            rw [List.getElem?_set_self hlen] at hgj
            injection hgj with h
            rw [← h] at hpj
            simp at hpj
          · rw [List.getElem?_set_ne hjj] at hgj
            exact inv.synthOne i' j' ci cj hgi hgj hpi hpj
      · intro c' hc' hp'
        rcases List.mem_or_eq_of_mem_set hc' with hmem | rfl
        · exact inv.synthInflight c' hmem hp'
        · exact absurd hp' (by simp)
      · intro c' hc' loc' hp'
        rcases List.mem_or_eq_of_mem_set hc' with hmem | rfl
        · exact inv.doneOkCache c' hmem loc' hp'
        · exact absurd hp' (by simp)
  | synthOk i c loc hc hp =>
      have hck : c.key = k := inv.keys c (memOfGetElem hc)
      have hlen : i < s.callers.length := ltLengthOfGetElem hc
      have hkin : k ∈ s.inflight := inv.synthInflight c (memOfGetElem hc) hp
      have hcache : s.cache = [] := inv.inflightMiss hkin
      have hnosynth : ∀ (m : Nat) (cm : CallerSt),
          ((s.callers.set i { c with phase := Phase.doneOk loc }).map
            (releaseOk c.key loc))[m]? = some cm →
          cm.phase ≠ Phase.synthesizing := by
        intro m cm hgm hpm
        rw [List.getElem?_map] at hgm
        cases hset : (s.callers.set i { c with phase := Phase.doneOk loc })[m]? with
        | none =>
            rw [hset] at hgm
            simp at hgm
        | some d =>
            rw [hset, Option.map_some'] at hgm
            injection hgm with hgm
            rw [← hgm] at hpm
            have hdp := releaseOk_phase_synth hpm
            by_cases him : i = m
            · subst him
              rw [List.getElem?_set_self hlen] at hset
              injection hset with h
              rw [← h] at hdp
              simp at hdp
            · rw [List.getElem?_set_ne him] at hset
              exact him (inv.synthOne m i d c hset hc hdp hp).symm
      refine ⟨?_, ?_, inv.inflightNodup.erase _, ?_, ?_, ?_, ?_, ?_, ?_, inv.callsKeys⟩
      · intro c' hc'
        rcases List.mem_map.mp hc' with ⟨d, hd, rfl⟩
        rw [releaseOk_key]
        rcases List.mem_or_eq_of_mem_set hd with hmem | rfl
        · exact inv.keys d hmem
        · exact hck
      · intro x hx
        exact inv.inflightSub x (List.mem_of_mem_erase hx)
      · intro e he
        rcases List.mem_cons.mp he with rfl | hmem
        · exact hck
        · exact inv.cacheKeys e hmem
      · show ((c.key, loc) :: s.cache).length ≤ 1
        simp [hcache]
      · intro i' j' ci cj hgi hgj hpi hpj
        exact absurd hpi (hnosynth i' ci hgi)
      · intro c' hc' hp'
        exfalso
        rcases List.mem_iff_getElem?.mp hc' with ⟨m, hm⟩
        exact hnosynth m c' hm hp'
      · intro hk'
        exfalso
        rw [hck] at hk'
        exact inv.inflightNodup.not_mem_erase hk'
      · intro c' hc' loc' hp'
        have hlk : lookupKey ((c.key, loc) :: s.cache) k = some loc := by
          rw [hck]
          exact lookupKey_cons_self s.cache k loc
        rcases List.mem_map.mp hc' with ⟨d, hd, rfl⟩
        rcases releaseOk_phase_doneOk hp' with hdp | ⟨rfl, hw⟩
        · rcases List.mem_or_eq_of_mem_set hd with hmem | rfl
          · exfalso
            have hx := inv.doneOkCache d hmem loc' hdp
            rw [hcache] at hx
            simp [lookupKey] at hx
          · simp at hdp
            rw [← hdp]
            exact hlk
        · exact hlk
  | synthFail i c hc hp =>
      have hck : c.key = k := inv.keys c (memOfGetElem hc)
      have hlen : i < s.callers.length := ltLengthOfGetElem hc
      have hkin : k ∈ s.inflight := inv.synthInflight c (memOfGetElem hc) hp
      have hcache : s.cache = [] := inv.inflightMiss hkin
      have hnosynth : ∀ (m : Nat) (cm : CallerSt),
          ((s.callers.set i { c with phase := Phase.doneErr }).map
            (releaseErr c.key))[m]? = some cm →
          cm.phase ≠ Phase.synthesizing := by
        intro m cm hgm hpm
        rw [List.getElem?_map] at hgm
        cases hset : (s.callers.set i { c with phase := Phase.doneErr })[m]? with
        | none =>
            rw [hset] at hgm
            simp at hgm
        | some d =>
            rw [hset, Option.map_some'] at hgm
            injection hgm with hgm
            rw [← hgm] at hpm
            have hdp := releaseErr_phase_synth hpm
            by_cases him : i = m
            · subst him
              rw [List.getElem?_set_self hlen] at hset
              injection hset with h
              rw [← h] at hdp
              simp at hdp
            · rw [List.getElem?_set_ne him] at hset
              exact him (inv.synthOne m i d c hset hc hdp hp).symm
      refine ⟨?_, ?_, inv.inflightNodup.erase _, inv.cacheKeys, inv.cacheLen, ?_, ?_, ?_, ?_,
        inv.callsKeys⟩
      · intro c' hc'
        rcases List.mem_map.mp hc' with ⟨d, hd, rfl⟩
        rw [releaseErr_key]
        rcases List.mem_or_eq_of_mem_set hd with hmem | rfl
        · exact inv.keys d hmem
        · exact hck
      · intro x hx
        exact inv.inflightSub x (List.mem_of_mem_erase hx)
      · intro i' j' ci cj hgi hgj hpi hpj
        exact absurd hpi (hnosynth i' ci hgi)
      · intro c' hc' hp'
        exfalso
        rcases List.mem_iff_getElem?.mp hc' with ⟨m, hm⟩
        exact hnosynth m c' hm hp'
      · intro _
        exact hcache
      · intro c' hc' loc' hp'
        exfalso
        rcases List.mem_map.mp hc' with ⟨d, hd, rfl⟩
        have hdp := releaseErr_phase_doneOk hp'
        rcases List.mem_or_eq_of_mem_set hd with hmem | rfl
        · have hx := inv.doneOkCache d hmem loc' hdp
          rw [hcache] at hx
          simp [lookupKey] at hx
        · simp at hdp


theorem nfInv_step {k : String} {s s' : SysState} {lab : Label}
    (inv : CacheInv k s) (nf : NoFailInv k s) (hstep : Step s lab s')
    (hok : ∀ i : Nat, lab ≠ Label.synthFail i) : NoFailInv k s' := by
  cases hstep with
  | hit i c loc hc hp hl => exact ⟨nf.callsLen, nf.callsEmptyIff⟩
  | join i c hc hp hl hn => exact ⟨nf.callsLen, nf.callsEmptyIff⟩
  | claim i c hc hp hl hn =>
      have hck : c.key = k := inv.keys c (memOfGetElem hc)
      have hkn : k ∉ s.inflight := by
        rw [← hck]
        exact hn
      have hcache : s.cache = [] := by
        refine cache_empty_of_miss inv.cacheKeys ?_
        rw [← hck]
        exact hl
      have hempty : s.calls = [] := nf.callsEmptyIff.mpr ⟨hkn, hcache⟩
      constructor
      · show ((i, c.key) :: s.calls).length ≤ 1
        rw [hempty]
        simp
      · constructor
        · intro h0
          exact absurd h0 (by simp)
        · rintro ⟨hnotin, -⟩
          exact absurd (List.mem_cons.mpr (Or.inl hck.symm)) hnotin
  | synthOk i c loc hc hp =>
      have hkin : k ∈ s.inflight := inv.synthInflight c (memOfGetElem hc) hp
      have hne : s.calls ≠ [] := by
        intro h0
        exact (nf.callsEmptyIff.mp h0).1 hkin
      refine ⟨nf.callsLen, ?_, ?_⟩
      · intro h0
        exact absurd h0 hne
      · rintro ⟨-, hc0⟩
        exact absurd hc0 (by simp)
  | synthFail i c hc hp => exact absurd rfl (hok i)

theorem cacheInv_run {k : String} : ∀ {s s' : SysState} {ls : List Label},
    Run s ls s' → CacheInv k s → CacheInv k s'
  | _, _, _, Run.refl _, inv => inv
  | _, _, _, Run.step h hr, inv => cacheInv_run hr (cacheInv_step inv h)

theorem nfInv_run {k : String} : ∀ {s s' : SysState} {ls : List Label},
    Run s ls s' → noFail ls = true → CacheInv k s → NoFailInv k s → NoFailInv k s'
  | _, _, _, Run.refl _, _, _, nf => nf
  | _, _, _, @Run.step _ _ _ lab ls h hr, hnf, inv, nf => by
      unfold noFail at hnf
      rw [List.all_cons, Bool.and_eq_true] at hnf
      obtain ⟨hl, hls⟩ := hnf
      have hok : ∀ i : Nat, lab ≠ Label.synthFail i := by
        intro i heq
        rw [heq] at hl
        simp at hl
      exact nfInv_run hr hls (cacheInv_step inv h) (nfInv_step inv nf h hok)

theorem cacheInv_init (k : String) (n : Nat) : CacheInv k (initState k n) := by
  refine ⟨?_, ?_, ?_, ?_, ?_, ?_, ?_, ?_, ?_, ?_⟩
  · intro c hc
    rw [List.eq_of_mem_replicate hc]
  · intro x hx
    exact absurd hx (List.not_mem_nil x)
  · exact List.nodup_nil
  · intro e he
    exact absurd he (List.not_mem_nil e)
  · simp [initState]
  · intro i j ci cj hgi hgj hpi hpj
    exfalso
    rw [show (initState k n).callers = List.replicate n ⟨k, Phase.start⟩ from rfl,
      List.getElem?_replicate] at hgi
    split_ifs at hgi
    injection hgi with h
    rw [← h] at hpi
    simp at hpi
  · intro c hc hp
    exfalso
    rw [List.eq_of_mem_replicate hc] at hp
    simp at hp
  · intro _
    rfl
  · intro c hc loc hp
    exfalso
    rw [List.eq_of_mem_replicate hc] at hp
    simp at hp
  · intro e he
    exact absurd he (List.not_mem_nil e)

theorem nfInv_init (k : String) (n : Nat) : NoFailInv k (initState k n) := by
  constructor
  · simp [initState]
  · simp [initState]


/-- C2: single-flight guarantee of the Announcement Cache.  In every reachable
state of a run starting from `n` concurrent `getOrCreate` callers for the same
never-before-seen phrase key `k`: at most one caller is mid-synthesis (at most
one outstanding Synthesis Provider call for `k` at any instant), any two
callers that finished successfully received the same audio location, and on a
failure-free trace at most one Synthesis Provider call is ever logged — and
exactly one as soon as any caller has received a location. -/
theorem announcement_cache_single_flight (k : String) (n : Nat) (ls : List Label)
    (s' : SysState) (hrun : Run (initState k n) ls s') :
    (∀ (i j : Nat) (ci cj : CallerSt), s'.callers[i]? = some ci → s'.callers[j]? = some cj →
        ci.phase = Phase.synthesizing → cj.phase = Phase.synthesizing → i = j)
    ∧ (∀ c1 ∈ s'.callers, ∀ c2 ∈ s'.callers, ∀ l1 l2 : String,
        c1.phase = Phase.doneOk l1 → c2.phase = Phase.doneOk l2 → l1 = l2)
    ∧ (noFail ls = true →
        s'.calls.length ≤ 1
        ∧ ((∃ c ∈ s'.callers, ∃ loc : String, c.phase = Phase.doneOk loc) →
            s'.calls.length = 1)) := by
  have inv := cacheInv_run hrun (cacheInv_init k n)
  refine ⟨inv.synthOne, ?_, ?_⟩
  · intro c1 h1 c2 h2 l1 l2 hp1 hp2
    have e1 := inv.doneOkCache c1 h1 l1 hp1
    have e2 := inv.doneOkCache c2 h2 l2 hp2
    rw [e1] at e2
    exact Option.some.inj e2
  · intro hnf
    have nf := nfInv_run hrun hnf (cacheInv_init k n) (nfInv_init k n)
    refine ⟨nf.callsLen, ?_⟩
    rintro ⟨c, hcmem, loc, hph⟩
    have hcache := inv.doneOkCache c hcmem loc hph
    have hne : s'.calls ≠ [] := by
      intro h0
      have h1 := (nf.callsEmptyIff.mp h0).2
      rw [h1] at hcache
      simp [lookupKey] at hcache
    have hge : 1 ≤ s'.calls.length := by
      cases hcalls : s'.calls with
      | nil => exact absurd hcalls hne
      | cons a as => simp
    have hle := nf.callsLen
    omega

/-- Witness for C2: caller 0 claims, caller 1 joins, the synthesis succeeds;
the conclusions hold at the resulting state. -/
theorem announcement_cache_single_flight_witness :
    (∀ (i j : Nat) (ci cj : CallerSt), twoCallerFinal.callers[i]? = some ci →
        twoCallerFinal.callers[j]? = some cj → ci.phase = Phase.synthesizing →
        cj.phase = Phase.synthesizing → i = j)
    ∧ (∀ c1 ∈ twoCallerFinal.callers, ∀ c2 ∈ twoCallerFinal.callers, ∀ l1 l2 : String,
        c1.phase = Phase.doneOk l1 → c2.phase = Phase.doneOk l2 → l1 = l2)
    ∧ (noFail twoCallerTrace = true →
        twoCallerFinal.calls.length ≤ 1
        ∧ ((∃ c ∈ twoCallerFinal.callers, ∃ loc : String, c.phase = Phase.doneOk loc) →
            twoCallerFinal.calls.length = 1)) :=
  announcement_cache_single_flight "k" 2 twoCallerTrace twoCallerFinal
    (Run.step (Step.claim (initState "k" 2) 0 ⟨"k", Phase.start⟩ rfl rfl rfl
        (by simp [initState]))
      (Run.step (Step.join _ 1 ⟨"k", Phase.start⟩ rfl rfl rfl
          (List.mem_cons_self _ _))
        (Run.step (Step.synthOk _ 0 ⟨"k", Phase.synthesizing⟩ "loc" rfl rfl)
          (Run.refl _))))

/-- C7: when the winning synthesis call fails, nothing is written to the
durable cache for that key, the InFlightSynthesis marker is removed, every
current waiter for the key is released with the identical failure
(`doneErr`), and a subsequent caller can immediately claim and retry the
synthesis from scratch. -/
theorem synthesis_failure_resets (s s' : SysState) (i : Nat) (k : String)
    (hstep : Step s (Label.synthFail i) s')
    (hc : s.callers[i]? = some ⟨k, Phase.synthesizing⟩)
    (hmiss : lookupKey s.cache k = none)
    (hnd : s.inflight.Nodup) :
    s'.cache = s.cache
    ∧ lookupKey s'.cache k = none
    ∧ k ∉ s'.inflight
    ∧ s'.calls = s.calls
    ∧ (∀ (j : Nat) (c : CallerSt), s.callers[j]? = some c → c.key = k →
        c.phase = Phase.waiting →
        s'.callers[j]? = some { c with phase := Phase.doneErr })
    ∧ (∀ (j : Nat) (c : CallerSt), s'.callers[j]? = some c → c.key = k →
        c.phase = Phase.start →
        Step s' (Label.claim j)
          { s' with inflight := k :: s'.inflight,
                    callers := s'.callers.set j { c with phase := Phase.synthesizing },
                    calls := (j, k) :: s'.calls }) := by
  cases hstep with
  | synthFail ii cc hcc hpp =>
      rw [hcc] at hc
      injection hc with hc
      subst hc
      have hkerase : k ∉ s.inflight.erase k := hnd.not_mem_erase
      refine ⟨rfl, hmiss, hkerase, rfl, ?_, ?_⟩
      · intro j cw hgj hkey hwait
        by_cases hij : i = j
        · subst hij
          rw [hcc] at hgj
          injection hgj with h
          rw [← h] at hwait
          simp at hwait
        · show ((s.callers.set i _).map (releaseErr _))[j]? = _
          rw [List.getElem?_map, List.getElem?_set_ne hij, hgj, Option.map_some']
          unfold releaseErr
          rw [if_pos ⟨hkey, hwait⟩]
      · intro j cs hgj hkey hstart
        obtain ⟨csk, csp⟩ := cs
        have hk2 : csk = k := hkey
        subst hk2
        exact Step.claim _ j ⟨csk, csp⟩ hgj hstart hmiss hkerase


/-- Witness for C7: in the concrete three-caller state, caller 0's failure
releases the waiter with the same error, clears the marker, writes nothing,
and leaves the fresh caller able to claim. -/
theorem synthesis_failure_resets_witness :
    failDemoPost.cache = failDemoPre.cache
    ∧ lookupKey failDemoPost.cache "k" = none
    ∧ "k" ∉ failDemoPost.inflight
    ∧ failDemoPost.calls = failDemoPre.calls
    ∧ (∀ (j : Nat) (c : CallerSt), failDemoPre.callers[j]? = some c → c.key = "k" →
        c.phase = Phase.waiting →
        failDemoPost.callers[j]? = some { c with phase := Phase.doneErr })
    ∧ (∀ (j : Nat) (c : CallerSt), failDemoPost.callers[j]? = some c → c.key = "k" →
        c.phase = Phase.start →
        Step failDemoPost (Label.claim j)
          { failDemoPost with
              inflight := "k" :: failDemoPost.inflight,
              callers := failDemoPost.callers.set j { c with phase := Phase.synthesizing },
              calls := (j, "k") :: failDemoPost.calls }) :=
  synthesis_failure_resets failDemoPre failDemoPost 0 "k"
    (Step.synthFail failDemoPre 0 ⟨"k", Phase.synthesizing⟩ rfl rfl)
    rfl rfl (by simp [failDemoPre])


end RememberMe
